import Mathlib

/-!
Verification of the task-management / PRP-parsing core of the repository
(`src/project-master/utils/task-utils.ts`, the `PRPParser` module, and the
shared type declarations in `src/project-master/database/schema.ts`).

The TypeScript functions are shallowly embedded as executable Lean
definitions: JS strings are modelled through their character lists,
JS numbers as rationals, JS `Date` values by their epoch-millisecond
count, optional fields by `Option`, and the single outbound network call
of the generation pipeline by an explicit `Except Unit String` oracle
argument (the response text, or a failure).  `Math.random()` is modelled
by an explicit stream of rationals in `[0, 1)`.
-/

/-! ## JS string primitives (on character lists) -/

/-- Whitespace predicate used to model `String.prototype.trim`. -/
def jsWhitespace (c : Char) : Bool := c.isWhitespace

/-- Drop leading and trailing whitespace, modelling JS `trim()`. -/
def trimChars (l : List Char) : List Char :=
  ((l.dropWhile jsWhitespace).reverse.dropWhile jsWhitespace).reverse

/-- JS `String.prototype.trim`. -/
def jsTrim (s : String) : String := String.mk (trimChars s.data)

/-- `sub` occurs as a prefix of `l` (character-wise). -/
def subIsPrefix : List Char → List Char → Bool
  | [], _ => true
  | _ :: _, [] => false
  | a :: as, b :: bs => a == b && subIsPrefix as bs

/-- `sub` occurs somewhere inside `l`, modelling JS `String.prototype.includes`. -/
def subOccurs (sub : List Char) : List Char → Bool
  | [] => subIsPrefix sub []
  | c :: rest => subIsPrefix sub (c :: rest) || subOccurs sub rest

/-- JS `s.includes(sub)`. -/
def strIncludes (s sub : String) : Bool := subOccurs sub.data s.data

/-- JS `s.substring(0, n)` (by code points; the UTF-16 distinction does not
matter for the properties proved here). -/
def jsTake (s : String) (n : Nat) : String := String.mk (s.data.take n)

/-- Split a character list at every newline, keeping empty pieces. -/
def splitLinesChars : List Char → List (List Char)
  | [] => [[]]
  | c :: rest =>
    if c = '\n' then [] :: splitLinesChars rest
    else
      match splitLinesChars rest with
      | [] => [[c]]
      | h :: t => (c :: h) :: t

/-- JS `s.split('\n')` (split at every newline, keeping empty pieces),
as performed by the fallback parser. -/
def splitLines (s : String) : List String := (splitLinesChars s.data).map String.mk

namespace ProjectMaster

/-! ## Data model (`database/schema.ts`) -/

/-- `TaskStatus` enum. -/
inductive TaskStatus where
  | todo | inProgress | blocked | inReview | done
deriving DecidableEq, Repr

/-- `TaskPriority` enum. -/
inductive TaskPriority where
  | critical | high | medium | low
deriving DecidableEq, Repr

/-- `Task` interface.  `createdAt`/`updatedAt`/`completedAt` are epoch
milliseconds (`new Date(d).getTime()`); hour fields are JS numbers,
optional per the declared interface. -/
structure Task where
  id : String
  projectId : String
  title : String
  description : Option String := none
  status : TaskStatus
  priority : TaskPriority
  dependencies : Option (List String) := none
  assignee : Option String := none
  estimatedHours : Option ℚ := none
  actualHours : Option ℚ := none
  notes : Option String := none
  createdAt : Nat := 0
  updatedAt : Nat := 0
  completedAt : Option Nat := none
deriving DecidableEq, Repr

/-- `ValidationResult` type. -/
structure ValidationResult where
  isValid : Bool
  errors : List String
deriving DecidableEq, Repr

/-! ## `PRPParser.sanitizePRPContent` (claim C9)

```js
return content
  .replace(/[<>]/g, '')   // Remove HTML tags
  .replace(/['\"]/g, '"') // Normalize quotes
  .trim();
```
-/

/-- The two character substitutions of `sanitizePRPContent`: angle brackets
are dropped, single and double quotes are normalized to `"`. -/
def sanitizeChar (c : Char) : Option Char :=
  if c = '<' ∨ c = '>' then none
  else if c = '\'' ∨ c = '"' then some '"'
  else some c

/-- `PRPParser.sanitizePRPContent`. -/
def sanitizePRPContent (content : String) : String :=
  String.mk (trimChars (content.data.filterMap sanitizeChar))

/-! ### Idempotence of the sanitizer -/

/-- The head of `dropWhile p l`, when present, does not satisfy `p`. -/
theorem dropWhile_head_false (p : Char → Bool) (l : List Char) (c : Char)
    (r : List Char) (h : l.dropWhile p = c :: r) : p c = false := by
  have := List.head?_dropWhile_not p l
  rw [h] at this
  simpa using this

/-- A nonempty `dropWhile` keeps the last element of the original list. -/
theorem getLast?_dropWhile (p : Char → Bool) (l : List Char)
    (h : l.dropWhile p ≠ []) : (l.dropWhile p).getLast? = l.getLast? := by
  induction l with
  | nil => simp at h
  | cons c rest ih =>
    by_cases hc : p c = true
    · rw [List.dropWhile_cons, if_pos hc] at h ⊢
      have hrest : rest ≠ [] := by
        intro he
        exact h (by simp [he])
      rw [ih h]
      cases rest with
      | nil => exact absurd rfl hrest
      | cons b bs => simp [List.getLast?_cons_cons]
    · rw [List.dropWhile_cons, if_neg hc]

/-- A list whose first character is not whitespace is untouched by the
leading `dropWhile` of `trimChars`. -/
theorem dropWhile_eq_self_of_head (p : Char → Bool) (l : List Char)
    (h : ∀ c r, l = c :: r → p c = false) : l.dropWhile p = l := by
  cases l with
  | nil => simp
  | cons c r => rw [List.dropWhile_cons, if_neg (by simp [h c r rfl])]

theorem trimChars_idem (l : List Char) : trimChars (trimChars l) = trimChars l := by
  set d1 := l.dropWhile jsWhitespace with hd1
  set d2 := d1.reverse.dropWhile jsWhitespace with hd2
  have ht : trimChars l = d2.reverse := rfl
  -- head of `d2.reverse` is the last of `d2`, which is the last of
  -- `d1.reverse`, i.e. the head of `d1`: not whitespace
  have hhead : ∀ c r, d2.reverse = c :: r → jsWhitespace c = false := by
    intro c r hcr
    have hne : d2 ≠ [] := by
      intro he
      rw [he] at hcr
      simp at hcr
    have h1 : d2.reverse.head? = some c := by rw [hcr]; rfl
    rw [List.head?_reverse] at h1
    rw [hd2, getLast?_dropWhile _ _ (hd2 ▸ hne), List.getLast?_reverse] at h1
    cases hcl : d1 with
    | nil =>
      rw [hcl] at h1
      simp at h1
    | cons a r1 =>
      rw [hcl] at h1
      simp at h1
      rw [← h1]
      exact dropWhile_head_false jsWhitespace l a r1 (hd1 ▸ hcl)
  -- head of `d2` itself is not whitespace either
  have hhead2 : ∀ c r, d2 = c :: r → jsWhitespace c = false := by
    intro c r hcr
    exact dropWhile_head_false jsWhitespace d1.reverse c r (hd2 ▸ hcr)
  rw [ht]
  show trimChars d2.reverse = d2.reverse
  unfold trimChars
  rw [dropWhile_eq_self_of_head _ _ hhead, List.reverse_reverse,
    dropWhile_eq_self_of_head _ _ hhead2]

/-- After one pass of character sanitization, every remaining character is a
fixed point of `sanitizeChar`. -/
theorem sanitizeChar_mem_fix (l : List Char) (c : Char)
    (h : c ∈ l.filterMap sanitizeChar) : sanitizeChar c = some c := by
  rcases List.mem_filterMap.1 h with ⟨a, _, ha⟩
  unfold sanitizeChar at ha ⊢
  by_cases h1 : a = '<' ∨ a = '>'
  · simp [h1] at ha
  · by_cases h2 : a = '\'' ∨ a = '"'
    · rw [if_neg h1, if_pos h2] at ha
      injection ha with ha
      subst ha
      simp
    · rw [if_neg h1, if_neg h2] at ha
      injection ha with ha
      subst ha
      rw [if_neg h1, if_neg h2]

/-- Trimming only removes characters, so membership is preserved. -/
theorem mem_of_mem_trimChars (l : List Char) (c : Char)
    (h : c ∈ trimChars l) : c ∈ l := by
  unfold trimChars at h
  rw [List.mem_reverse] at h
  have h2 := (List.dropWhile_suffix jsWhitespace).subset h
  rw [List.mem_reverse] at h2
  exact (List.dropWhile_suffix jsWhitespace).subset h2

/-- `filterMap` over fixed points is the identity. -/
theorem filterMap_fix (l : List Char) (h : ∀ c ∈ l, sanitizeChar c = some c) :
    l.filterMap sanitizeChar = l := by
  induction l with
  | nil => rfl
  | cons c rest ih =>
    rw [List.filterMap_cons, h c (by simp)]
    rw [ih (fun d hd => h d (by simp [hd]))]

/-- Claim C9: `sanitizePRPContent` is idempotent — a second application of
angle-bracket removal, quote normalization, and trimming changes nothing. -/
theorem sanitizePRPContent_idem (x : String) :
    sanitizePRPContent (sanitizePRPContent x) = sanitizePRPContent x := by
  unfold sanitizePRPContent
  rw [filterMap_fix]
  · rw [trimChars_idem]
  · intro c hc
    exact sanitizeChar_mem_fix x.data c (mem_of_mem_trimChars _ c hc)

/-! ## `validateTaskDependencies` (`task-utils.ts`, lines 20-88)

The inner `hasCycle` closure performs a depth-first search.  `visited` is
shared across the whole search (the JS `Set` is mutated and never pruned),
while `recursionStack` holds exactly the current path (entries are deleted
on exit, so the stack seen by a child is the path above it).  The Lean
embedding threads `visited` through sibling calls and passes the stack
down; a fuel argument makes termination structural.  Each recursive call
that does not return early inserts a previously unseen id into `visited`,
and every id ever visited comes from `taskId`, the proposed dependencies,
or some task's dependency list, so `cycleFuel` (one more than the total
count of those ids) is never exhausted.
-/

/-- Dependencies the DFS uses for `cur`: the proposed ones for the task
being validated, the stored ones (`|| []`) for any other task. -/
def depsFor (tasks : List Task) (taskId : String) (proposed : List String)
    (cur : String) : List String :=
  if cur = taskId then proposed
  else match tasks.find? (fun t => t.id == cur) with
    | some t => t.dependencies.getD []
    | none => []

/-- The `for (const depId of currentDeps)` loop of `hasCycle`, with early
exit on a detected cycle; `visit` performs the recursive DFS call. -/
def hasCycleLoop (visit : String → List String → List String → Bool × List String) :
    List String → List String → List String → Bool × List String
  | [], visited, _ => (false, visited)
  | d :: rest, visited, stack =>
    let r := visit d visited stack
    if r.1 then (true, r.2)
    else hasCycleLoop visit rest r.2 stack

/-- One DFS visit of `hasCycle`.  Returns the cycle flag and the updated
shared `visited` set. -/
def hasCycleVisit (tasks : List Task) (taskId : String) (proposed : List String) :
    Nat → String → List String → List String → Bool × List String
  | 0, _, visited, _ => (false, visited)
  | fuel + 1, cur, visited, stack =>
    if cur ∈ stack then (true, visited)
    else if cur ∈ visited then (false, visited)
    else
      hasCycleLoop (fun d v s => hasCycleVisit tasks taskId proposed fuel d v s)
        (depsFor tasks taskId proposed cur) (cur :: visited) (cur :: stack)

/-- Fuel that the DFS can never exhaust: one more than the number of ids
that can ever enter `visited`. -/
def cycleFuel (taskId : String) (proposed : List String) (tasks : List Task) : Nat :=
  (taskId :: proposed ++ tasks.foldr (fun (t : Task) acc => t.dependencies.getD [] ++ acc) []).length + 1

/-- `hasCycle(taskId)` as called at line 67 of `task-utils.ts`. -/
def hasCycle (taskId : String) (proposed : List String) (tasks : List Task) : Bool :=
  (hasCycleVisit tasks taskId proposed (cycleFuel taskId proposed tasks) taskId [] []).1

/-- The error (if any) pushed for a single dependency id by the loop at
lines 74-81 of `task-utils.ts`, given the validated task's project id. -/
def depErrorFor (taskPid : String) (tasks : List Task) (d : String) : List String :=
  match tasks.find? (fun u => u.id == d) with
  | none => ["Dependency task " ++ d ++ " not found"]
  | some u =>
    if u.projectId ≠ taskPid
    then ["Dependency task " ++ d ++ " is not in the same project"]
    else []

/-- The `Dependency task {id} not found` / `is not in the same project`
checks (lines 71-82): they run only when `taskId` resolves and its
`projectId` is truthy (a nonempty string). -/
def dependencyExistenceErrors (taskId : String) (proposed : List String)
    (tasks : List Task) : List String :=
  match tasks.find? (fun t => t.id == taskId) with
  | none => []
  | some t =>
    if t.projectId = "" then []
    else proposed.foldl (fun acc d => acc ++ depErrorFor t.projectId tasks d) []

/-- `validateTaskDependencies(taskId, dependencies, allTasks)`. -/
def validateTaskDependencies (taskId : String) (dependencies : List String)
    (allTasks : List Task) : ValidationResult :=
  if dependencies.isEmpty then ⟨true, []⟩
  else
    let errs1 := if taskId ∈ dependencies then ["Task cannot depend on itself"] else []
    let errs2 := errs1 ++
      (if hasCycle taskId dependencies allTasks then ["Circular dependency detected"] else [])
    let errs3 := errs2 ++ dependencyExistenceErrors taskId dependencies allTasks
    ⟨errs3.isEmpty, errs3⟩

/-! ## `buildTaskDependencyGraph` (`task-utils.ts`, lines 93-145) -/

/-- Lookup in the JS object `graph`, whose keys are task ids; on duplicate
ids the later assignment wins, hence the reverse search. -/
def graphFind (tasks : List Task) (id : String) : Option Task :=
  tasks.reverse.find? (fun t => t.id == id)

/-- `calculateLevel` (lines 118-137) with explicit fuel.  The JS recursion
terminates because the per-call `visited` copy grows along every path and
recursion only descends into ids present in `graph`; depth is therefore at
most the number of tasks plus one, so `tasks.length + 2` fuel is never
exhausted. -/
def calcLevel (tasks : List Task) : Nat → List String → String → Nat
  | 0, _, _ => 0
  | fuel + 1, visited, tid =>
    if tid ∈ visited then 0
    else match graphFind tasks tid with
      | none => 0
      | some t =>
        let deps := t.dependencies.getD []
        if deps.isEmpty then 0
        else deps.foldl (fun maxLevel d =>
          if (graphFind tasks d).isSome
          then max maxLevel (calcLevel tasks fuel (tid :: visited) d + 1)
          else maxLevel) 0

/-- The `level` field assigned by `buildTaskDependencyGraph` to the node
with id `tid`. -/
def buildGraphLevel (tasks : List Task) (tid : String) : Nat :=
  calcLevel tasks (tasks.length + 1 + 1) [] tid

/-- The `dependents` list assigned by `buildTaskDependencyGraph`: one entry
per matching dependency occurrence, in task order. -/
def buildGraphDependents (tasks : List Task) (tid : String) : List String :=
  tasks.foldl (fun acc u =>
    acc ++ ((u.dependencies.getD []).filter (fun d => d == tid)).map (fun _ => u.id)) []

/-- A node of `TaskDependencyGraph`. -/
structure GraphNode where
  task : Task
  dependencies : List String
  dependents : List String
  level : Nat
deriving Repr

/-- `buildTaskDependencyGraph(tasks)` as a partial map from ids to nodes. -/
def buildTaskDependencyGraph (tasks : List Task) (tid : String) : Option GraphNode :=
  match graphFind tasks tid with
  | none => none
  | some t => some
      { task := t
        dependencies := t.dependencies.getD []
        dependents := buildGraphDependents tasks tid
        level := buildGraphLevel tasks tid }

/-! ## `findNextTask` (`task-utils.ts`, lines 150-192) -/

/-- The eligibility filter of `findNextTask` (lines 155-171). -/
def isAvailable (tasks : List Task) (excludeBlocked : Bool) (task : Task) : Bool :=
  if task.status = TaskStatus.done then false
  else if excludeBlocked && task.status = TaskStatus.blocked then false
  else if task.status = TaskStatus.inProgress then false
  else match task.dependencies with
    | none => true
    | some deps => deps.all (fun d =>
        match tasks.find? (fun t => t.id == d) with
        | some dt => dt.status = TaskStatus.done
        | none => false)

/-- `priorityOrder` (lines 176-181). -/
def priorityOrder : TaskPriority → Nat
  | TaskPriority.critical => 0
  | TaskPriority.high => 1
  | TaskPriority.medium => 2
  | TaskPriority.low => 3

/-- The comparator of lines 183-189 as a boolean `≤`: `a` sorts no later
than `b` iff its priority rank is smaller, or equal with an
earlier-or-equal creation time. -/
def taskLE (a b : Task) : Bool :=
  priorityOrder a.priority < priorityOrder b.priority ||
    (priorityOrder a.priority = priorityOrder b.priority && a.createdAt ≤ b.createdAt)

/-- Stable insertion of `x` into a `taskLE`-sorted list: `x` goes before
the first element it compares `≤` to, so earlier-listed elements win ties,
exactly as in the stable `Array.prototype.sort`. -/
def insertSorted (x : Task) : List Task → List Task
  | [] => [x]
  | y :: ys => if taskLE x y then x :: y :: ys else y :: insertSorted x ys

/-- Stable sort by the comparator of lines 183-189.  A stable sort's output
is uniquely determined by the input order and the comparator, so this
models the JS `availableTasks.sort(...)` faithfully. -/
def sortTasks : List Task → List Task
  | [] => []
  | x :: xs => insertSorted x (sortTasks xs)

/-- `findNextTask(tasks, excludeBlocked)`: filter, sort, first element. -/
def findNextTask (tasks : List Task) (excludeBlocked : Bool) : Option Task :=
  let availableTasks := tasks.filter (isAvailable tasks excludeBlocked)
  if availableTasks.isEmpty then none
  else (sortTasks availableTasks).head?

/-! ## `calculateProjectAnalytics` (`task-utils.ts`, lines 197-244) -/

/-- `ProjectAnalytics` record. -/
structure ProjectAnalytics where
  totalTasks : Nat
  completedTasks : Nat
  inProgressTasks : Nat
  blockedTasks : Nat
  completionRate : ℚ
  averageTaskDuration : ℚ
  totalEstimatedHours : ℚ
  totalActualHours : ℚ
  efficiencyRatio : ℚ
deriving DecidableEq, Repr

/-- `safeToNumber` on an optional hour field.  Under the declared field
type `number | undefined` the string-parsing and NaN branches of the JS
helper are unreachable, leaving `undefined → 0`. -/
def safeToNumber (v : Option ℚ) : ℚ := v.getD 0

/-- Truthiness of `t.actualHours && t.completedAt` (line 224): a numeric
field is truthy iff present and nonzero; a `Date` is always truthy. -/
def hasRecordedDuration (t : Task) : Bool :=
  t.status = TaskStatus.done &&
    (match t.actualHours with | some q => q ≠ 0 | none => false) &&
    t.completedAt.isSome

/-- `calculateProjectAnalytics(tasks)`. -/
def calculateProjectAnalytics (tasks : List Task) : ProjectAnalytics :=
  let totalTasks := tasks.length
  let completedTasks := (tasks.filter (fun t => t.status = TaskStatus.done)).length
  let inProgressTasks := (tasks.filter (fun t => t.status = TaskStatus.inProgress)).length
  let blockedTasks := (tasks.filter (fun t => t.status = TaskStatus.blocked)).length
  let completionRate : ℚ :=
    if totalTasks > 0 then ((completedTasks : ℚ) / (totalTasks : ℚ)) * 100 else 0
  let totalEstimatedHours := tasks.foldl (fun sum t => sum + safeToNumber t.estimatedHours) 0
  let totalActualHours := tasks.foldl (fun sum t => sum + safeToNumber t.actualHours) 0
  let completedTasksWithHours := tasks.filter hasRecordedDuration
  let averageTaskDuration : ℚ :=
    if completedTasksWithHours.length > 0 then
      (completedTasksWithHours.foldl (fun sum t => sum + safeToNumber t.actualHours) 0) /
        (completedTasksWithHours.length : ℚ)
    else 0
  let efficiencyRatio : ℚ :=
    if totalEstimatedHours > 0 ∧ totalActualHours > 0
    then (totalEstimatedHours / totalActualHours) * 100
    else 0
  { totalTasks := totalTasks
    completedTasks := completedTasks
    inProgressTasks := inProgressTasks
    blockedTasks := blockedTasks
    completionRate := completionRate
    averageTaskDuration := averageTaskDuration
    totalEstimatedHours := totalEstimatedHours
    totalActualHours := totalActualHours
    efficiencyRatio := efficiencyRatio }

/-! ## JSON values and `JSON.parse`

`PRPParser.generateTasksFromPRP` feeds the completion-service text through
`JSON.parse`.  The model below implements the JSON grammar on character
lists with explicit fuel (every recursive step consumes at least one
character, so `length + 2` fuel is never exhausted on accepted inputs).
`\uXXXX` escapes are mapped through `Char.ofNat`; surrogate-pair handling
is not modelled, which is irrelevant to the properties proved here.
-/

/-- Parsed JSON values.  Objects keep their field order; on duplicate keys
`JSON.parse` keeps the last occurrence, handled at property lookup. -/
inductive Json where
  | null
  | bool (b : Bool)
  | num (q : ℚ)
  | str (s : String)
  | arr (elements : List Json)
  | obj (fields : List (String × Json))

/-- JSON whitespace (exactly space, tab, line feed, carriage return). -/
def jsonWs (c : Char) : Bool := c = ' ' ∨ c = '\t' ∨ c = '\n' ∨ c = '\r'

/-- Skip insignificant whitespace. -/
def skipWs (l : List Char) : List Char := l.dropWhile jsonWs

/-- Decimal digits to a natural number (most significant first). -/
def digitsToNat (ds : List Char) : Nat :=
  ds.foldl (fun acc c => acc * 10 + (c.toNat - '0'.toNat)) 0

/-- Parse one or more decimal digits. -/
def takeDigits (l : List Char) : List Char × List Char :=
  (l.takeWhile Char.isDigit, l.dropWhile Char.isDigit)

/-- Parse a JSON number literal: `-? int frac? exp?` with the JSON
leading-zero restriction. -/
def parseJsonNumber (l : List Char) : Option (ℚ × List Char) :=
  let (neg, l1) := match l with
    | '-' :: r => (true, r)
    | _ => (false, l)
  let (intDigits, l2) := takeDigits l1
  if intDigits.isEmpty then none
  else if intDigits.length > 1 && intDigits.headI = '0' then none
  else
    let (fracDigits, l3) := match l2 with
      | '.' :: r => takeDigits r
      | _ => ([], l2)
    if (match l2 with | '.' :: _ => fracDigits.isEmpty | _ => false) then none
    else
      let hasExp := match l3 with
        | 'e' :: _ => true
        | 'E' :: _ => true
        | _ => false
      let (expNeg, l4) := match l3 with
        | _ :: '+' :: r => if hasExp then (false, r) else (false, l3)
        | _ :: '-' :: r => if hasExp then (true, r) else (false, l3)
        | _ :: r => if hasExp then (false, r) else (false, l3)
        | _ => (false, l3)
      let (expDigits, l5) := if hasExp then takeDigits l4 else ([], l3)
      if hasExp && expDigits.isEmpty then none
      else
        let mantissa : ℚ :=
          (digitsToNat intDigits : ℚ) +
            (digitsToNat fracDigits : ℚ) / ((10 : ℚ) ^ fracDigits.length)
        let signed : ℚ := if neg then -mantissa else mantissa
        let e : ℕ := digitsToNat expDigits
        let scaled : ℚ := if expNeg then signed / (10 : ℚ) ^ e else signed * (10 : ℚ) ^ e
        some (scaled, if hasExp then l5 else l3)

/-- Hex digit value. -/
def hexVal (c : Char) : Option Nat :=
  if c.isDigit then some (c.toNat - '0'.toNat)
  else if 'a' ≤ c ∧ c ≤ 'f' then some (c.toNat - 'a'.toNat + 10)
  else if 'A' ≤ c ∧ c ≤ 'F' then some (c.toNat - 'A'.toNat + 10)
  else none

/-- Parse the body of a JSON string literal (the opening quote already
consumed), rejecting unescaped control characters as `JSON.parse` does. -/
def parseJsonStringBody : Nat → List Char → Option (List Char × List Char)
  | 0, _ => none
  | _, [] => none
  | fuel + 1, c :: rest =>
    if c = '"' then some ([], rest)
    else if c = '\\' then
      match rest with
      | [] => none
      | e :: rest2 =>
        let esc : Option (Char × List Char) :=
          if e = '"' then some ('"', rest2)
          else if e = '\\' then some ('\\', rest2)
          else if e = '/' then some ('/', rest2)
          else if e = 'b' then some (Char.ofNat 8, rest2)
          else if e = 'f' then some (Char.ofNat 12, rest2)
          else if e = 'n' then some ('\n', rest2)
          else if e = 'r' then some ('\r', rest2)
          else if e = 't' then some ('\t', rest2)
          else if e = 'u' then
            match rest2 with
            | h1 :: h2 :: h3 :: h4 :: rest3 =>
              match hexVal h1, hexVal h2, hexVal h3, hexVal h4 with
              | some v1, some v2, some v3, some v4 =>
                some (Char.ofNat (((v1 * 16 + v2) * 16 + v3) * 16 + v4), rest3)
              | _, _, _, _ => none
            | _ => none
          else none
        match esc with
        | none => none
        | some (ch, rest') =>
          match parseJsonStringBody fuel rest' with
          | some (s, rem) => some (ch :: s, rem)
          | none => none
    else if c.toNat < 32 then none
    else
      match parseJsonStringBody fuel rest with
      | some (s, rem) => some (c :: s, rem)
      | none => none

/-- Parse the members of a JSON object after `{` (at least one member);
`pv` parses one nested value. -/
def parseJsonMembers (pv : List Char → Option (Json × List Char)) :
    Nat → List Char → Option (List (String × Json) × List Char)
  | 0, _ => none
  | fuel + 1, l =>
    match skipWs l with
    | '"' :: r =>
      match parseJsonStringBody (r.length + 1) r with
      | some (k, r2) =>
        match skipWs r2 with
        | ':' :: r3 =>
          match pv r3 with
          | some (v, r4) =>
            match skipWs r4 with
            | ',' :: r5 =>
              match parseJsonMembers pv fuel r5 with
              | some (fs, rem) => some ((String.mk k, v) :: fs, rem)
              | none => none
            | '}' :: r5 => some ([(String.mk k, v)], r5)
            | _ => none
          | none => none
        | _ => none
      | none => none
    | _ => none

/-- Parse the elements of a JSON array after `[` (at least one element);
`pv` parses one nested value. -/
def parseJsonElements (pv : List Char → Option (Json × List Char)) :
    Nat → List Char → Option (List Json × List Char)
  | 0, _ => none
  | fuel + 1, l =>
    match pv l with
    | some (v, r) =>
      match skipWs r with
      | ',' :: r2 =>
        match parseJsonElements pv fuel r2 with
        | some (xs, rem) => some (v :: xs, rem)
        | none => none
      | ']' :: r2 => some ([v], r2)
      | _ => none
    | none => none

/-- Parse a JSON value (leading whitespace allowed). -/
def parseJsonValue : Nat → List Char → Option (Json × List Char)
  | 0, _ => none
  | fuel + 1, l =>
    match skipWs l with
    | '{' :: r =>
      match skipWs r with
      | '}' :: r2 => some (Json.obj [], r2)
      | _ =>
        match parseJsonMembers (fun l2 => parseJsonValue fuel l2)
            ((skipWs r).length + 1) (skipWs r) with
        | some (fs, rem) => some (Json.obj fs, rem)
        | none => none
    | '[' :: r =>
      match skipWs r with
      | ']' :: r2 => some (Json.arr [], r2)
      | _ =>
        match parseJsonElements (fun l2 => parseJsonValue fuel l2)
            ((skipWs r).length + 1) (skipWs r) with
        | some (xs, rem) => some (Json.arr xs, rem)
        | none => none
    | '"' :: r =>
      match parseJsonStringBody (r.length + 1) r with
      | some (s, rem) => some (Json.str (String.mk s), rem)
      | none => none
    | 't' :: 'r' :: 'u' :: 'e' :: r => some (Json.bool true, r)
    | 'f' :: 'a' :: 'l' :: 's' :: 'e' :: r => some (Json.bool false, r)
    | 'n' :: 'u' :: 'l' :: 'l' :: r => some (Json.null, r)
    | rest =>
      match parseJsonNumber rest with
      | some (q, rem) => some (Json.num q, rem)
      | none => none

/-- `JSON.parse(s)`: a single value covering the whole input (up to
surrounding whitespace), or a parse failure. -/
def jsonParse (s : String) : Option Json :=
  match parseJsonValue (s.length + 2) s.data with
  | some (v, rest) => if (skipWs rest).isEmpty then some v else none
  | none => none

/-! ## `PRPParser` task generation (`generateTasksFromPRP` and helpers) -/

/-- `AITask` (`schema.ts`).  The `description` keeps the raw JS value
selected by `task.description || task.title || placeholder`; the fallback
path always stores a string. -/
structure AITask where
  title : String
  description : Json
  priority : TaskPriority
  estimatedHours : Option ℚ := none
  dependencies : Option (List String) := none

/-- `TaskGenerationConfig` (`schema.ts`). -/
structure TaskGenerationConfig where
  maxTasks : Nat
  includeMilestones : Bool
  defaultPriority : TaskPriority
  estimateHours : Bool
  generateDependencies : Bool

/-- JS property read `task.k` on a parsed-JSON value: a `TypeError` on
`null` (modelled as `Except.error`), the field (last duplicate wins) on an
object, `undefined` (`Option.none`) on everything else. -/
def getProp : Json → String → Except Unit (Option Json)
  | Json.null, _ => Except.error ()
  | Json.obj fields, k => Except.ok ((fields.reverse.find? (fun f => f.1 == k)).map (·.2))
  | _, _ => Except.ok none

/-- JS truthiness of a possibly-undefined parsed-JSON value. -/
def truthyOpt : Option Json → Bool
  | none => false
  | some Json.null => false
  | some (Json.bool b) => b
  | some (Json.num q) => q ≠ 0
  | some (Json.str s) => s ≠ ""
  | some (Json.arr _) => true
  | some (Json.obj _) => true

/-- The four valid priority strings (`Object.values(TaskPriority)`). -/
def priorityOfString (s : String) : Option TaskPriority :=
  if s = "critical" then some TaskPriority.critical
  else if s = "high" then some TaskPriority.high
  else if s = "medium" then some TaskPriority.medium
  else if s = "low" then some TaskPriority.low
  else none

/-- The regex `/^task-index-\d+$/`. -/
def isTaskIndexRef (s : String) : Bool :=
  subIsPrefix "task-index-".data s.data &&
    (let rest := s.data.drop 11
     !rest.isEmpty && rest.all Char.isDigit)

/-- One step of `validateAndNormalizeTasks` (lines 112-130 of the parser):
normalize the element at position `idx`.  `Except.error` models the JS
`TypeError`s that a malformed element raises (reading a property of
`null`, or calling `.substring` on a non-string), which the enclosing
`try` of `generateTasksFromPRP` turns into the fallback. -/
def normalizeTask (config : TaskGenerationConfig) (idx : Nat) (task : Json) :
    Except Unit AITask := do
  let titleRaw ← getProp task "title"
  let titleTrunc : Option String ←
    match titleRaw with
    | none => Except.ok none
    | some Json.null => Except.ok none
    | some (Json.str s) => Except.ok (some (jsTake s 100))
    | some _ => Except.error ()
  let title := match titleTrunc with
    | some s =>
      if s = "" then "Generated Implementation Task " ++ toString (idx + 1) else s
    | none => "Generated Implementation Task " ++ toString (idx + 1)
  let descRaw ← getProp task "description"
  let description : Json :=
    if truthyOpt descRaw then descRaw.getD Json.null
    else if truthyOpt titleRaw then titleRaw.getD Json.null
    else Json.str ("Implementation task " ++ toString (idx + 1))
  let prioRaw ← getProp task "priority"
  let priority := match prioRaw with
    | some (Json.str s) =>
      match priorityOfString s with
      | some p => p
      | none => config.defaultPriority
    | _ => config.defaultPriority
  let ehRaw ← getProp task "estimatedHours"
  let estimatedHours : Option ℚ :=
    if config.estimateHours then
      match ehRaw with
      | some (Json.num q) => if q ≠ 0 then some (max (1/2) (min 40 q)) else none
      | _ => none
    else none
  let depRaw ← getProp task "dependencies"
  let dependencies : Option (List String) :=
    if config.generateDependencies then
      match depRaw with
      | some (Json.arr xs) => some (xs.filterMap (fun x =>
          match x with
          | Json.str s => if isTaskIndexRef s then some s else none
          | _ => none))
      | _ => none
    else none
  pure { title := title, description := description, priority := priority,
         estimatedHours := estimatedHours, dependencies := dependencies }

/-- The indexed `.map` of `validateAndNormalizeTasks`; the first raised
`TypeError` aborts the whole batch. -/
def normalizeLoop (config : TaskGenerationConfig) : Nat → List Json → Except Unit (List AITask)
  | _, [] => Except.ok []
  | idx, t :: rest => do
    let v ← normalizeTask config idx t
    let vs ← normalizeLoop config (idx + 1) rest
    pure (v :: vs)

/-- `validateAndNormalizeTasks(aiTasks, config)`:
`aiTasks.slice(0, config.maxTasks).map(...)`. -/
def validateAndNormalizeTasks (aiTasks : List Json) (config : TaskGenerationConfig) :
    Except Unit (List AITask) :=
  normalizeLoop config 0 (aiTasks.take config.maxTasks)

/-- The fallback keyword set of `parsePreviewPRP` (lines 149-151). -/
def fallbackKeywords : List String :=
  ["implement", "create", "build", "code", "function", "class", "component", "api", "test"]

/-- A line triggers the fallback extraction iff it contains one of the
implementation keywords. -/
def lineHasKeyword (line : String) : Bool :=
  fallbackKeywords.any (fun k => strIncludes line k)

/-- The validation reminder appended to every fallback description. -/
def validationReminder : String :=
  "\n\nValidation gates: Run tests and type checking after implementation."

/-- The `for (const line of lines)` loop of `parsePreviewPRP`.  `rand k` is
the value of the `Math.random()` call made for the `k`-th pushed task (used
only when `config.estimateHours`). -/
def previewLoop (config : TaskGenerationConfig) (rand : Nat → ℚ) :
    List String → List AITask → List AITask
  | [], tasks => tasks
  | line :: rest, tasks =>
    if lineHasKeyword line then
      let title := jsTrim (jsTake line 100)
      let priority :=
        if strIncludes line "critical" || strIncludes line "must"
        then TaskPriority.high else TaskPriority.medium
      let eh : Option ℚ :=
        if config.estimateHours
        then some ((⌊rand tasks.length * 8⌋ : ℚ) + 1) else none
      let newTask : AITask :=
        { title := title
          description := Json.str (jsTrim line ++ validationReminder)
          priority := priority
          estimatedHours := eh
          dependencies := none }
      let tasks2 := tasks ++ [newTask]
      if config.maxTasks ≤ tasks2.length then tasks2
      else previewLoop config rand rest tasks2
    else previewLoop config rand rest tasks

/-- `parsePreviewPRP(prpContent, projectContext, config)` (fallback path). -/
def parsePreviewPRP (prpContent : String) (config : TaskGenerationConfig)
    (rand : Nat → ℚ) : List AITask :=
  previewLoop config rand
    ((splitLines prpContent).filter (fun line => jsTrim line ≠ "")) []

/-- `generateTasksFromPRP(prpContent, projectContext, config)`.

The single `fetch` of the AI path is modelled by `response`: `Except.error`
covers a non-2xx response, a network failure, or any exception raised
before the body text is available; `Except.ok text` is the completion text
payload.  Every failure of the AI path — including a `JSON.parse` failure,
a non-array parse result (whose `.slice`/`.map` raises a `TypeError`), and
a `TypeError` during normalization — is caught by the enclosing
`try`/`catch` and routed to `parsePreviewPRP`.  `projectContext` only
feeds the outbound prompt, never the result. -/
def generateTasksFromPRP (response : Except Unit String) (prpContent : String)
    (projectContext : Json) (config : TaskGenerationConfig) (rand : Nat → ℚ) :
    List AITask :=
  match response with
  | Except.error _ => parsePreviewPRP prpContent config rand
  | Except.ok text =>
    match jsonParse text with
    | some (Json.arr xs) =>
      match validateAndNormalizeTasks xs config with
      | Except.ok ts => ts
      | Except.error _ => parsePreviewPRP prpContent config rand
    | _ => parsePreviewPRP prpContent config rand

/-! ## Claim C8 — analytics rates -/

/-- Claim C8: `calculateProjectAnalytics` computes
`completionRate = completedTasks / totalTasks * 100` (0 when there are no
tasks) and `efficiencyRatio = totalEstimatedHours / totalActualHours * 100`
(estimated over actual, only when both totals are strictly positive,
otherwise 0); on the empty collection all four quoted fields are 0. -/
theorem calculateProjectAnalytics_spec (tasks : List Task) :
    ((calculateProjectAnalytics tasks).completionRate =
      if (calculateProjectAnalytics tasks).totalTasks > 0
      then (((calculateProjectAnalytics tasks).completedTasks : ℚ) /
        ((calculateProjectAnalytics tasks).totalTasks : ℚ)) * 100
      else 0) ∧
    ((calculateProjectAnalytics tasks).efficiencyRatio =
      if (calculateProjectAnalytics tasks).totalEstimatedHours > 0 ∧
          (calculateProjectAnalytics tasks).totalActualHours > 0
      then ((calculateProjectAnalytics tasks).totalEstimatedHours /
        (calculateProjectAnalytics tasks).totalActualHours) * 100
      else 0) ∧
    (calculateProjectAnalytics []).totalTasks = 0 ∧
    (calculateProjectAnalytics []).completionRate = 0 ∧
    (calculateProjectAnalytics []).totalEstimatedHours = 0 ∧
    (calculateProjectAnalytics []).efficiencyRatio = 0 := by
  refine ⟨rfl, rfl, rfl, rfl, rfl, rfl⟩

/-! ## Claims C4 and C10 — dependency existence / self-dependency -/

/-- Membership in an error-accumulating fold. -/
theorem mem_foldl_append {α : Type} (g : α → List String) :
    ∀ (l : List α) (acc : List String) (x : String),
      x ∈ l.foldl (fun a d => a ++ g d) acc ↔ x ∈ acc ∨ ∃ d ∈ l, x ∈ g d := by
  intro l
  induction l with
  | nil => simp
  | cons d rest ih =>
    intro acc x
    rw [List.foldl_cons, ih]
    simp only [List.mem_append, List.mem_cons]
    constructor
    · rintro ((h | h) | ⟨e, he, hx⟩)
      · exact Or.inl h
      · exact Or.inr ⟨d, Or.inl rfl, h⟩
      · exact Or.inr ⟨e, Or.inr he, hx⟩
    · rintro (h | ⟨e, (rfl | he), hx⟩)
      · exact Or.inl (Or.inl h)
      · exact Or.inl (Or.inr hx)
      · exact Or.inr ⟨e, he, hx⟩

/-- Claim C4 counterexample: with `taskId = "A"` absent from an empty task
collection and proposed dependency `"B"`, the code skips the existence
check entirely (the `taskProjectId` guard fails), so the promised
`Dependency task B not found` error is missing and the result is even
reported valid. -/
theorem validateTaskDependencies_missing_task_cex :
    "Dependency task B not found" ∉
      (validateTaskDependencies "A" ["B"] ([] : List Task)).errors ∧
    (validateTaskDependencies "A" ["B"] ([] : List Task)).errors = [] ∧
    (validateTaskDependencies "A" ["B"] ([] : List Task)).isValid = true := by
  refine ⟨by decide, by decide, by decide⟩

/-- Claim C4 (amended): when the validated task itself resolves in
`allTasksInProject` and carries a truthy (nonempty) `projectId`, every
proposed dependency id that does not resolve yields
`Dependency task {id} not found`, and every one resolving to a task of a
different project yields `Dependency task {id} is not in the same
project`. -/
theorem validateTaskDependencies_existence (taskId : String)
    (deps : List String) (tasks : List Task) (t : Task)
    (hfind : tasks.find? (fun u => u.id == taskId) = some t)
    (hpid : t.projectId ≠ "") :
    (∀ d ∈ deps, tasks.find? (fun u => u.id == d) = none →
      ("Dependency task " ++ d ++ " not found") ∈
        (validateTaskDependencies taskId deps tasks).errors) ∧
    (∀ d ∈ deps, ∀ u, tasks.find? (fun v => v.id == d) = some u →
      u.projectId ≠ t.projectId →
      ("Dependency task " ++ d ++ " is not in the same project") ∈
        (validateTaskDependencies taskId deps tasks).errors) := by
  constructor
  · intro d hd hnone
    have hne : deps ≠ [] := by
      intro he
      rw [he] at hd
      simp at hd
    unfold validateTaskDependencies
    rw [if_neg (by simpa using hne)]
    simp only [ValidationResult.mk.injEq, List.mem_append]
    right
    unfold dependencyExistenceErrors
    rw [hfind]
    dsimp only
    rw [if_neg hpid, mem_foldl_append]
    right
    refine ⟨d, hd, ?_⟩
    unfold depErrorFor
    rw [hnone]
    simp
  · intro d hd u hu hne'
    have hne : deps ≠ [] := by
      intro he
      rw [he] at hd
      simp at hd
    unfold validateTaskDependencies
    rw [if_neg (by simpa using hne)]
    simp only [List.mem_append]
    right
    unfold dependencyExistenceErrors
    rw [hfind]
    dsimp only
    rw [if_neg hpid, mem_foldl_append]
    right
    refine ⟨d, hd, ?_⟩
    unfold depErrorFor
    rw [hu]
    dsimp only
    rw [if_pos hne']
    simp

/-- Claim C4 amended witness: task `A` resolves in project `p`; dependency
`C` lives in project `q` and dependency `X` is unknown. -/
theorem validateTaskDependencies_existence_witness :
    ("Dependency task X not found") ∈
      (validateTaskDependencies "A" ["C", "X"]
        [{ id := "A", projectId := "p", title := "a",
           status := TaskStatus.todo, priority := TaskPriority.high },
         { id := "C", projectId := "q", title := "c",
           status := TaskStatus.done, priority := TaskPriority.low }]).errors ∧
    ("Dependency task C is not in the same project") ∈
      (validateTaskDependencies "A" ["C", "X"]
        [{ id := "A", projectId := "p", title := "a",
           status := TaskStatus.todo, priority := TaskPriority.high },
         { id := "C", projectId := "q", title := "c",
           status := TaskStatus.done, priority := TaskPriority.low }]).errors := by
  have h := validateTaskDependencies_existence "A" ["C", "X"]
    [{ id := "A", projectId := "p", title := "a",
       status := TaskStatus.todo, priority := TaskPriority.high },
     { id := "C", projectId := "q", title := "c",
       status := TaskStatus.done, priority := TaskPriority.low }]
    { id := "A", projectId := "p", title := "a",
      status := TaskStatus.todo, priority := TaskPriority.high }
    (by decide) (by decide)
  refine ⟨?_, ?_⟩
  · have hx := h.1 "X" (by decide) (by decide)
    simpa using hx
  · have hc := h.2 "C" (by decide)
      { id := "C", projectId := "q", title := "c",
        status := TaskStatus.done, priority := TaskPriority.low }
      (by decide) (by decide)
    simpa using hc

/-- If some pending dependency id already sits on the recursion stack and
the DFS visit reports a cycle for any id on the stack, the dependency loop
reports a cycle. -/
theorem hasCycleLoop_true
    (visit : String → List String → List String → Bool × List String)
    (hv : ∀ d v s, d ∈ s → (visit d v s).1 = true) :
    ∀ (l visited stack : List String), (∃ d ∈ l, d ∈ stack) →
      (hasCycleLoop visit l visited stack).1 = true := by
  intro l
  induction l with
  | nil =>
    intro visited stack h
    simp at h
  | cons d rest ih =>
    intro visited stack h
    rcases h with ⟨e, he, hes⟩
    unfold hasCycleLoop
    dsimp only
    rcases List.mem_cons.1 he with rfl | he'
    · rw [hv e visited stack hes]
      simp
    · cases hr : (visit d visited stack).1 with
      | true => simp
      | false =>
        simp only [Bool.false_eq_true, if_false]
        exact ih _ _ ⟨e, he', hes⟩

/-- A task id that appears among its own proposed dependencies makes the
DFS of `validateTaskDependencies` report a cycle: the root is pushed on the
stack and immediately revisited. -/
theorem hasCycle_of_self_mem (taskId : String) (proposed : List String)
    (tasks : List Task) (hmem : taskId ∈ proposed) :
    hasCycle taskId proposed tasks = true := by
  unfold hasCycle cycleFuel
  rw [hasCycleVisit]
  rw [if_neg (List.not_mem_nil taskId), if_neg (List.not_mem_nil taskId)]
  have hdeps : depsFor tasks taskId proposed taskId = proposed := by
    unfold depsFor
    rw [if_pos rfl]
  rw [hdeps]
  have hm : ((taskId :: proposed) ++
      tasks.foldr (fun (t : Task) acc => t.dependencies.getD [] ++ acc) []).length =
      (proposed.length +
        (tasks.foldr (fun (t : Task) acc => t.dependencies.getD [] ++ acc) []).length) + 1 := by
    rw [List.length_append, List.length_cons]
    omega
  rw [hm]
  apply hasCycleLoop_true
  · intro d v s hd
    rw [hasCycleVisit, if_pos hd]
  · exact ⟨taskId, hmem, by simp⟩

/-- Claim C10: when `taskId ∈ proposedDependencies`, `validate` reports
both `Task cannot depend on itself` and `Circular dependency detected`
(the self-edge is found as a cycle by the DFS), and the result is
invalid. -/
theorem validateTaskDependencies_selfdep (taskId : String) (deps : List String)
    (tasks : List Task) (hmem : taskId ∈ deps) :
    "Task cannot depend on itself" ∈
      (validateTaskDependencies taskId deps tasks).errors ∧
    "Circular dependency detected" ∈
      (validateTaskDependencies taskId deps tasks).errors ∧
    (validateTaskDependencies taskId deps tasks).isValid = false := by
  have hne : deps ≠ [] := by
    intro he
    rw [he] at hmem
    simp at hmem
  unfold validateTaskDependencies
  rw [if_neg (by simpa using hne)]
  dsimp only
  rw [if_pos hmem, hasCycle_of_self_mem taskId deps tasks hmem]
  refine ⟨by simp, by simp, ?_⟩
  simp

/-- Claim C10 witness: the concrete self-dependency `A → A`. -/
theorem validateTaskDependencies_selfdep_witness :
    "Task cannot depend on itself" ∈
      (validateTaskDependencies "A" ["A"] ([] : List Task)).errors ∧
    "Circular dependency detected" ∈
      (validateTaskDependencies "A" ["A"] ([] : List Task)).errors ∧
    (validateTaskDependencies "A" ["A"] ([] : List Task)).isValid = false :=
  validateTaskDependencies_selfdep "A" ["A"] [] (by decide)

/-- No dependency-existence error is the cycle error (their first
characters differ). -/
theorem depError_ne_cycle (d suffix : String) :
    ("Dependency task " ++ d ++ suffix) ≠ "Circular dependency detected" := by
  intro h
  have h2 := congrArg String.data h
  rw [String.data_append, String.data_append] at h2
  have e1 : ("Dependency task " : String).data = 'D' :: "ependency task ".data := rfl
  have e2 : ("Circular dependency detected" : String).data =
      'C' :: "ircular dependency detected".data := rfl
  rw [e1, e2, List.cons_append, List.cons_append] at h2
  injection h2 with h3 _
  exact absurd h3 (by decide)

/-- The existence/project checks never emit the cycle error. -/
theorem count_cycle_dependencyErrors (taskId : String) (deps : List String)
    (tasks : List Task) :
    (dependencyExistenceErrors taskId deps tasks).count
      "Circular dependency detected" = 0 := by
  rw [List.count_eq_zero]
  intro hmem
  unfold dependencyExistenceErrors at hmem
  rcases hf : tasks.find? (fun t => t.id == taskId) with _ | t
  · rw [hf] at hmem
    simp at hmem
  · rw [hf] at hmem
    dsimp only at hmem
    by_cases hp : t.projectId = ""
    · rw [if_pos hp] at hmem
      simp at hmem
    · rw [if_neg hp, mem_foldl_append] at hmem
      rcases hmem with h | ⟨d, _, hd⟩
      · simp at h
      · unfold depErrorFor at hd
        rcases hg : tasks.find? (fun u => u.id == d) with _ | u
        · rw [hg] at hd
          simp at hd
          exact depError_ne_cycle d " not found" hd.symm
        · rw [hg] at hd
          dsimp only at hd
          by_cases hq : u.projectId ≠ t.projectId
          · rw [if_pos hq] at hd
            simp at hd
            exact depError_ne_cycle d " is not in the same project" hd.symm
          · rw [if_neg hq] at hd
            simp at hd

/-- Claim C3: with nonempty proposed dependencies, the error list of
`validate` contains `Circular dependency detected` exactly once iff the
depth-first traversal (proposed edges for `taskId`, stored edges for every
other task) revisits a node on its recursion stack — i.e. iff `hasCycle`
fires — and contains it zero times otherwise; a single flag is emitted
regardless of how many cycles exist. -/
theorem validateTaskDependencies_cycle_count (taskId : String)
    (deps : List String) (tasks : List Task) (hne : deps ≠ []) :
    (validateTaskDependencies taskId deps tasks).errors.count
        "Circular dependency detected" =
      if hasCycle taskId deps tasks then 1 else 0 := by
  unfold validateTaskDependencies
  rw [if_neg (by simpa using hne)]
  dsimp only
  rw [List.count_append, List.count_append, count_cycle_dependencyErrors]
  have h1 : (if taskId ∈ deps then ["Task cannot depend on itself"] else []).count
      "Circular dependency detected" = 0 := by
    by_cases hmem : taskId ∈ deps
    · rw [if_pos hmem]
      decide
    · rw [if_neg hmem]
      rfl
  rw [h1]
  by_cases hc : hasCycle taskId deps tasks = true
  · rw [if_pos hc, if_pos hc]
    decide
  · rw [if_neg hc, if_neg hc]
    rfl

/-- Claim C3 witness: a concrete cyclic instance (`A` proposes `B`, `B`
stores `A`) evaluates to exactly one cycle flag. -/
theorem validateTaskDependencies_cycle_count_witness :
    (validateTaskDependencies "A" ["B"]
        [{ id := "B", projectId := "p", title := "b",
           status := TaskStatus.todo, priority := TaskPriority.high,
           dependencies := some ["A"] }]).errors.count
        "Circular dependency detected" =
      if hasCycle "A" ["B"]
          [{ id := "B", projectId := "p", title := "b",
             status := TaskStatus.todo, priority := TaskPriority.high,
             dependencies := some ["A"] }] then 1 else 0 :=
  validateTaskDependencies_cycle_count "A" ["B"] _ (by decide)

/-- The sort comparator, unfolded to its proposition. -/
theorem taskLE_iff (a b : Task) : taskLE a b = true ↔
    (priorityOrder a.priority < priorityOrder b.priority ∨
      (priorityOrder a.priority = priorityOrder b.priority ∧
        a.createdAt ≤ b.createdAt)) := by
  simp [taskLE]

theorem taskLE_trans (a b c : Task) (hab : taskLE a b = true)
    (hbc : taskLE b c = true) : taskLE a c = true := by
  rw [taskLE_iff] at hab hbc ⊢
  omega

theorem taskLE_total (a b : Task) : taskLE a b = true ∨ taskLE b a = true := by
  rw [taskLE_iff, taskLE_iff]
  omega

theorem insertSorted_perm (x : Task) (l : List Task) :
    (insertSorted x l).Perm (x :: l) := by
  induction l with
  | nil => exact List.Perm.refl _
  | cons y ys ih =>
    unfold insertSorted
    by_cases h : taskLE x y = true
    · rw [if_pos h]
    · rw [if_neg h]
      exact (ih.cons y).trans (List.Perm.swap x y ys)

theorem sortTasks_perm (l : List Task) : (sortTasks l).Perm l := by
  induction l with
  | nil => exact List.Perm.refl _
  | cons x xs ih =>
    unfold sortTasks
    exact (insertSorted_perm x (sortTasks xs)).trans (ih.cons x)

theorem insertSorted_sorted (x : Task) (l : List Task)
    (hl : List.Pairwise (fun a b => taskLE a b = true) l) :
    List.Pairwise (fun a b => taskLE a b = true) (insertSorted x l) := by
  induction l with
  | nil => simp [insertSorted]
  | cons y ys ih =>
    unfold insertSorted
    rcases List.pairwise_cons.1 hl with ⟨hy, hys⟩
    by_cases h : taskLE x y = true
    · rw [if_pos h]
      refine List.pairwise_cons.2 ⟨?_, hl⟩
      intro z hz
      rcases List.mem_cons.1 hz with rfl | hz'
      · exact h
      · exact taskLE_trans x y z h (hy z hz')
    · rw [if_neg h]
      refine List.pairwise_cons.2 ⟨?_, ih hys⟩
      intro z hz
      have hz2 : z ∈ x :: ys := (insertSorted_perm x ys).mem_iff.1 hz
      rcases List.mem_cons.1 hz2 with rfl | hz'
      · rcases taskLE_total y z with hyx | hxy
        · exact hyx
        · exact absurd hxy h
      · exact hy z hz'

theorem sortTasks_sorted (l : List Task) :
    List.Pairwise (fun a b => taskLE a b = true) (sortTasks l) := by
  induction l with
  | nil => simp [sortTasks]
  | cons x xs ih => exact insertSorted_sorted x (sortTasks xs) ih

/-- Claim C2: `findNextTask` returns `null` exactly when no task passes
the eligibility filter (not done, not in-progress, not blocked when
excluded, all dependencies resolving to done tasks), and otherwise returns
an eligible member of the list that is minimal in the lexicographic order
(priority rank `critical=0 < high=1 < medium=2 < low=3`, ties broken by
earliest `createdAt`). -/
theorem findNextTask_spec (tasks : List Task) (excludeBlocked : Bool) :
    (findNextTask tasks excludeBlocked = none ↔
      ∀ t ∈ tasks, isAvailable tasks excludeBlocked t = false) ∧
    (∀ t, findNextTask tasks excludeBlocked = some t →
      t ∈ tasks ∧ isAvailable tasks excludeBlocked t = true ∧
      ∀ u ∈ tasks, isAvailable tasks excludeBlocked u = true →
        (priorityOrder t.priority < priorityOrder u.priority ∨
          (priorityOrder t.priority = priorityOrder u.priority ∧
            t.createdAt ≤ u.createdAt))) := by
  have hperm := sortTasks_perm (tasks.filter (isAvailable tasks excludeBlocked))
  have hsort := sortTasks_sorted (tasks.filter (isAvailable tasks excludeBlocked))
  constructor
  · constructor
    · intro h
      unfold findNextTask at h
      dsimp only at h
      cases he : (tasks.filter (isAvailable tasks excludeBlocked)).isEmpty with
      | true =>
        intro t ht
        have hnil := List.isEmpty_iff.1 he
        by_contra hav
        have : t ∈ tasks.filter (isAvailable tasks excludeBlocked) :=
          List.mem_filter.2 ⟨ht, by simpa using hav⟩
        rw [hnil] at this
        simp at this
      | false =>
        rw [he] at h
        simp only [Bool.false_eq_true, if_false] at h
        rw [List.head?_eq_none_iff] at h
        have hlen := hperm.length_eq
        rw [h] at hlen
        have : tasks.filter (isAvailable tasks excludeBlocked) = [] :=
          List.eq_nil_of_length_eq_zero hlen.symm
        rw [this] at he
        simp at he
    · intro hall
      unfold findNextTask
      dsimp only
      rw [if_pos]
      rw [List.isEmpty_iff, List.filter_eq_nil]
      intro t ht
      rw [hall t ht]
      simp
  · intro t ht
    unfold findNextTask at ht
    dsimp only at ht
    cases he : (tasks.filter (isAvailable tasks excludeBlocked)).isEmpty with
    | true =>
      rw [he] at ht
      simp at ht
    | false =>
      rw [he] at ht
      simp only [Bool.false_eq_true, if_false] at ht
      cases hms : sortTasks (tasks.filter (isAvailable tasks excludeBlocked)) with
      | nil =>
        rw [hms] at ht
        simp at ht
      | cons h0 rest =>
        rw [hms] at ht
        simp only [List.head?_cons, Option.some.injEq] at ht
        subst ht
        have hmem : h0 ∈ tasks.filter (isAvailable tasks excludeBlocked) := by
          apply hperm.subset
          rw [hms]
          exact List.mem_cons_self _ _
        have hmem' := List.mem_filter.1 hmem
        refine ⟨hmem'.1, hmem'.2, ?_⟩
        intro u hu hav
        have humem : u ∈ sortTasks (tasks.filter (isAvailable tasks excludeBlocked)) := by
          rw [hperm.mem_iff]
          exact List.mem_filter.2 ⟨hu, hav⟩
        rw [hms] at humem
        rcases List.mem_cons.1 humem with rfl | hurest
        · exact Or.inr ⟨rfl, le_rfl⟩
        · have hpw := hsort
          rw [hms] at hpw
          have := (List.pairwise_cons.1 hpw).1 u hurest
          exact (taskLE_iff h0 u).1 this

/-- Claim C2 witness: the spec's Scenario A (blocked/critical recommended
unless blocked tasks are excluded, then the dependency-free todo/high). -/
theorem findNextTask_spec_witness :
    (findNextTask
      [{ id := "1", projectId := "p", title := "t1", status := TaskStatus.done,
         priority := TaskPriority.high, createdAt := 1 },
       { id := "2", projectId := "p", title := "t2", status := TaskStatus.blocked,
         priority := TaskPriority.critical, createdAt := 2 },
       { id := "3", projectId := "p", title := "t3", status := TaskStatus.todo,
         priority := TaskPriority.high, createdAt := 3 },
       { id := "4", projectId := "p", title := "t4", status := TaskStatus.todo,
         priority := TaskPriority.critical, createdAt := 4,
         dependencies := some ["3"] }] false).map (fun t => t.id) = some "2" ∧
    ((findNextTask ([] : List Task) true = none) ↔
      ∀ t ∈ ([] : List Task), isAvailable [] true t = false) := by
  refine ⟨by decide, (findNextTask_spec [] true).1⟩

/-! ## Claim C5 — dependency levels -/

/-- A successful `graphFind` returns a member carrying the looked-up id. -/
theorem graphFind_mem (tasks : List Task) (id : String) (t : Task)
    (h : graphFind tasks id = some t) : t ∈ tasks ∧ t.id = id := by
  unfold graphFind at h
  have h1 := List.mem_of_find?_eq_some h
  rw [List.mem_reverse] at h1
  have h2 := List.find?_some h
  exact ⟨h1, by simpa using h2⟩

/-- `find?` returns the unique element satisfying the predicate. -/
theorem find?_eq_of_unique (l : List Task) (p : Task → Bool) (t : Task)
    (hmem : t ∈ l) (hp : p t = true) (huniq : ∀ u ∈ l, p u = true → u = t) :
    l.find? p = some t := by
  induction l with
  | nil => simp at hmem
  | cons a rest ih =>
    cases hpa : p a with
    | true =>
      rw [List.find?_cons_of_pos _ hpa]
      rw [huniq a (List.mem_cons_self a rest) hpa]
    | false =>
      rw [List.find?_cons_of_neg _ (by simp [hpa])]
      rcases List.mem_cons.1 hmem with rfl | hmem'
      · rw [hp] at hpa
        cases hpa
      · exact ih hmem' (fun u hu hpu => huniq u (List.mem_cons_of_mem a hu) hpu)

/-- With unique ids, a task's graph node is the task itself. -/
theorem graphFind_self (tasks : List Task) (t : Task)
    (hnodup : (tasks.map (fun u => u.id)).Nodup) (ht : t ∈ tasks) :
    graphFind tasks t.id = some t := by
  unfold graphFind
  apply find?_eq_of_unique
  · rw [List.mem_reverse]
    exact ht
  · simp
  · intro u hu hpu
    rw [List.mem_reverse] at hu
    exact List.inj_on_of_nodup_map hnodup hu ht (by simpa using hpu)

/-- Fold functions that agree on the traversed elements fold equally. -/
theorem foldl_congr_fn {α β : Type} (f g : β → α → β) (l : List α) (a : β)
    (h : ∀ x ∈ l, ∀ b, f b x = g b x) : l.foldl f a = l.foldl g a := by
  induction l generalizing a with
  | nil => rfl
  | cons x xs ih =>
    rw [List.foldl_cons, List.foldl_cons, h x (List.mem_cons_self x xs) a]
    exact ih _ (fun y hy b => h y (List.mem_cons_of_mem x hy) b)

/-- On a ranked (acyclic) graph, `calculateLevel` is independent of the
fuel and of any visited set consisting of higher-ranked ids: the visited
guard never fires and the fuel never runs out. -/
theorem calcLevel_indep (tasks : List Task) (r : String → Nat)
    (hr : ∀ u ∈ tasks, ∀ d ∈ u.dependencies.getD [],
      (graphFind tasks d).isSome = true → r d < r u.id) :
    ∀ n tid, r tid ≤ n →
      ∀ fuel1 fuel2 (v1 v2 : List String), n < fuel1 → n < fuel2 →
        (∀ x ∈ v1, r tid < r x) → (∀ x ∈ v2, r tid < r x) →
        calcLevel tasks fuel1 v1 tid = calcLevel tasks fuel2 v2 tid := by
  intro n
  induction n using Nat.strong_induction_on with
  | _ n ih =>
    intro tid hrn fuel1 fuel2 v1 v2 hf1 hf2 hv1 hv2
    obtain ⟨f1, rfl⟩ : ∃ f1, fuel1 = f1 + 1 := ⟨fuel1 - 1, by omega⟩
    obtain ⟨f2, rfl⟩ : ∃ f2, fuel2 = f2 + 1 := ⟨fuel2 - 1, by omega⟩
    rw [calcLevel, calcLevel]
    have h1 : tid ∉ v1 := fun hx => absurd (hv1 tid hx) (by omega)
    have h2 : tid ∉ v2 := fun hx => absurd (hv2 tid hx) (by omega)
    rw [if_neg h1, if_neg h2]
    cases hg : graphFind tasks tid with
    | none => rfl
    | some t =>
      dsimp only
      by_cases hdeps : (t.dependencies.getD []).isEmpty = true
      · rw [if_pos hdeps, if_pos hdeps]
      · rw [if_neg hdeps, if_neg hdeps]
        apply foldl_congr_fn
        intro d hd b
        by_cases hs : (graphFind tasks d).isSome = true
        · rw [if_pos hs, if_pos hs]
          have hmem := graphFind_mem tasks tid t hg
          have hrd : r d < r tid := by
            have := hr t hmem.1 d hd hs
            rwa [hmem.2] at this
          have heq := ih (r d) (by omega) d le_rfl f1 f2 (tid :: v1) (tid :: v2)
            (by omega) (by omega)
            (by
              intro x hx
              rcases List.mem_cons.1 hx with rfl | hx'
              · exact hrd
              · exact lt_trans hrd (hv1 x hx'))
            (by
              intro x hx
              rcases List.mem_cons.1 hx with rfl | hx'
              · exact hrd
              · exact lt_trans hrd (hv2 x hx'))
          rw [heq]
        · rw [if_neg hs, if_neg hs]

/-- Folding `max` over successors adds one to the fold of the bases. -/
theorem foldl_max_add_one (f : String → Nat) :
    ∀ (l : List String) (a : Nat),
      l.foldl (fun m d => max m (f d + 1)) (a + 1) =
        l.foldl (fun m d => max m (f d)) a + 1 := by
  intro l
  induction l with
  | nil => intro a; rfl
  | cons d rest ih =>
    intro a
    rw [List.foldl_cons, List.foldl_cons]
    have hmax : (a + 1) ⊔ (f d + 1) = (a ⊔ f d) + 1 := by omega
    rw [hmax, ih]

/-- Claim C5: in `buildTaskDependencyGraph`, a task with an empty
dependency list is assigned level 0, and a task all of whose dependencies
resolve in the graph is assigned one more than the maximum of its
dependencies' assigned levels.  Acyclicity is supplied as a rank function
`r` that strictly decreases along resolved dependency edges and is bounded
by the task count (any topological numbering qualifies); ids are assumed
unique as the data model requires. -/
theorem buildTaskDependencyGraph_level (tasks : List Task) (r : String → Nat)
    (hnodup : (tasks.map (fun u => u.id)).Nodup)
    (hr : ∀ u ∈ tasks, ∀ d ∈ u.dependencies.getD [],
      (graphFind tasks d).isSome = true → r d < r u.id)
    (hbound : ∀ u ∈ tasks, r u.id ≤ tasks.length) :
    ∀ t ∈ tasks,
      (t.dependencies.getD [] = [] → buildGraphLevel tasks t.id = 0) ∧
      (t.dependencies.getD [] ≠ [] →
        (∀ d ∈ t.dependencies.getD [], (graphFind tasks d).isSome = true) →
        buildGraphLevel tasks t.id =
          ((t.dependencies.getD []).map (fun d => buildGraphLevel tasks d)).foldl
            max 0 + 1) := by
  intro t ht
  have hg : graphFind tasks t.id = some t := graphFind_self tasks t hnodup ht
  constructor
  · intro hdeps
    unfold buildGraphLevel
    rw [calcLevel, if_neg (List.not_mem_nil t.id), hg]
    dsimp only
    rw [if_pos (by rw [hdeps]; rfl)]
  · intro hne hall
    unfold buildGraphLevel
    rw [calcLevel, if_neg (List.not_mem_nil t.id), hg]
    dsimp only
    rw [if_neg (by simpa using hne)]
    have hstep : (t.dependencies.getD []).foldl
        (fun m d => if (graphFind tasks d).isSome = true
          then max m (calcLevel tasks (tasks.length + 1) (t.id :: []) d + 1)
          else m) 0 =
        (t.dependencies.getD []).foldl
          (fun m d => max m (buildGraphLevel tasks d + 1)) 0 := by
      apply foldl_congr_fn
      intro d hd b
      rw [if_pos (hall d hd)]
      have hrd : r d < r t.id := hr t ht d hd (hall d hd)
      have hb : r t.id ≤ tasks.length := hbound t ht
      have heq := calcLevel_indep tasks r hr (r d) d le_rfl
        (tasks.length + 1) (tasks.length + 1 + 1) (t.id :: []) []
        (by omega) (by omega)
        (by
          intro x hx
          rcases List.mem_cons.1 hx with rfl | hx'
          · exact hrd
          · simp at hx')
        (by intro x hx; simp at hx)
      unfold buildGraphLevel
      rw [heq]
    rw [hstep]
    rw [List.foldl_map]
    cases hl : t.dependencies.getD [] with
    | nil => exact absurd hl hne
    | cons d rest =>
      rw [List.foldl_cons, List.foldl_cons, Nat.zero_max, Nat.zero_max]
      exact foldl_max_add_one _ rest (buildGraphLevel tasks d)

/-- Concrete two-task chain used by the C5 witness. -/
def levelTaskA : Task :=
  { id := "A", projectId := "p", title := "a",
    status := TaskStatus.todo, priority := TaskPriority.high }

/-- Concrete dependent task used by the C5 witness. -/
def levelTaskB : Task :=
  { id := "B", projectId := "p", title := "b",
    status := TaskStatus.todo, priority := TaskPriority.high,
    dependencies := some ["A"] }

/-- Claim C5 witness: the chain `B → A` with `A` dependency-free; the
rank `r` maps `B` to 1 and everything else to 0. -/
theorem buildTaskDependencyGraph_level_witness :
    buildGraphLevel [levelTaskA, levelTaskB] "A" = 0 ∧
    buildGraphLevel [levelTaskA, levelTaskB] "B" =
      (["A"].map (fun d => buildGraphLevel [levelTaskA, levelTaskB] d)).foldl
        max 0 + 1 := by
  have h := buildTaskDependencyGraph_level [levelTaskA, levelTaskB]
    (fun id => if id = "B" then 1 else 0)
    (by decide) (by decide) (by decide)
  refine ⟨(h levelTaskA (by decide)).1 (by decide), ?_⟩
  have h2 := (h levelTaskB (by decide)).2 (by decide) (by decide)
  exact h2

/-! ## Fallback-path lemmas (claims C1, C6, C7) -/

/-- Once strictly under the cap, the fallback loop never exceeds it: each
push is followed by the `tasks.length >= config.maxTasks` break. -/
theorem previewLoop_le (config : TaskGenerationConfig) (rand : Nat → ℚ) :
    ∀ (lines : List String) (tasks : List AITask),
      tasks.length < config.maxTasks →
      (previewLoop config rand lines tasks).length ≤ config.maxTasks := by
  intro lines
  induction lines with
  | nil =>
    intro tasks h
    exact Nat.le_of_lt h
  | cons line rest ih =>
    intro tasks h
    unfold previewLoop
    by_cases hk : lineHasKeyword line = true
    · rw [if_pos hk]
      dsimp only
      by_cases hstop : config.maxTasks ≤ tasks.length + 1
      · rw [if_pos (by simpa using hstop)]
        simpa using Nat.succ_le_of_lt h
      · rw [if_neg (by simpa using hstop)]
        exact ih _ (by simpa using Nat.lt_of_not_le hstop)
    · rw [if_neg hk]
      exact ih tasks h

/-- Unconditional bound for the fallback loop: at most one task beyond the
cap can ever be pushed (the very first push when the cap is already met). -/
theorem previewLoop_le_max (config : TaskGenerationConfig) (rand : Nat → ℚ) :
    ∀ (lines : List String) (tasks : List AITask),
      (previewLoop config rand lines tasks).length ≤
        max config.maxTasks (tasks.length + 1) := by
  intro lines
  induction lines with
  | nil =>
    intro tasks
    unfold previewLoop
    exact le_max_of_le_right (Nat.le_succ _)
  | cons line rest ih =>
    intro tasks
    unfold previewLoop
    by_cases hk : lineHasKeyword line = true
    · rw [if_pos hk]
      dsimp only
      by_cases hstop : config.maxTasks ≤ tasks.length + 1
      · rw [if_pos (by simpa using hstop)]
        simp only [List.length_append, List.length_cons, List.length_nil]
        omega
      · rw [if_neg (by simpa using hstop)]
        refine le_trans (previewLoop_le config rand rest _ ?_) (le_max_left _ _)
        simp only [List.length_append, List.length_cons, List.length_nil]
        omega
    · rw [if_neg hk]
      exact ih tasks

/-- The fallback loop never loses tasks: a keyword line (or a nonempty
accumulator) guarantees a nonempty result. -/
theorem previewLoop_ne_nil (config : TaskGenerationConfig) (rand : Nat → ℚ) :
    ∀ (lines : List String) (tasks : List AITask),
      ((∃ line ∈ lines, lineHasKeyword line = true) ∨ tasks ≠ []) →
      previewLoop config rand lines tasks ≠ [] := by
  intro lines
  induction lines with
  | nil =>
    intro tasks h
    rcases h with ⟨line, hl, _⟩ | h
    · simp at hl
    · simpa [previewLoop] using h
  | cons line rest ih =>
    intro tasks h
    unfold previewLoop
    by_cases hk : lineHasKeyword line = true
    · rw [if_pos hk]
      dsimp only
      by_cases hstop : config.maxTasks ≤ tasks.length + 1
      · rw [if_pos (by simpa using hstop)]
        simp
      · rw [if_neg (by simpa using hstop)]
        apply ih
        right
        simp
    · rw [if_neg hk]
      apply ih
      rcases h with ⟨l2, hl2, hkey⟩ | hne
      · rcases List.mem_cons.1 hl2 with rfl | hl2'
        · exact absurd hkey hk
        · exact Or.inl ⟨l2, hl2', hkey⟩
      · exact Or.inr hne

/-- A prefix occurrence pins down the head of the list. -/
theorem subIsPrefix_head (c : Char) (cs l : List Char)
    (h : subIsPrefix (c :: cs) l = true) : ∃ r, l = c :: r := by
  cases l with
  | nil => simp [subIsPrefix] at h
  | cons b bs =>
    refine ⟨bs, ?_⟩
    unfold subIsPrefix at h
    rw [Bool.and_eq_true] at h
    have := h.1
    simp at this
    rw [this]

/-- A nonempty substring occurrence puts its head character in the text. -/
theorem subOccurs_mem (c : Char) (cs : List Char) :
    ∀ (l : List Char), subOccurs (c :: cs) l = true → c ∈ l := by
  intro l
  induction l with
  | nil =>
    intro h
    unfold subOccurs at h
    simp [subIsPrefix] at h
  | cons b bs ih =>
    intro h
    unfold subOccurs at h
    rw [Bool.or_eq_true] at h
    rcases h with h | h
    · rcases subIsPrefix_head c cs _ h with ⟨r, hr⟩
      rw [hr]
      exact List.mem_cons_self c r
    · exact List.mem_cons_of_mem b (ih h)

/-- A list holding a non-whitespace character does not trim to nothing. -/
theorem trimChars_ne_nil (l : List Char) (c : Char) (hc : c ∈ l)
    (hw : jsWhitespace c = false) : trimChars l ≠ [] := by
  intro h
  unfold trimChars at h
  rw [List.reverse_eq_nil_iff, List.dropWhile_eq_nil_iff] at h
  have hall : ∀ x ∈ l.dropWhile jsWhitespace, jsWhitespace x = true := by
    intro x hx
    have : x ∈ (l.dropWhile jsWhitespace).reverse := List.mem_reverse.2 hx
    exact h x this
  have hl := List.takeWhile_append_dropWhile jsWhitespace l
  rw [← hl] at hc
  rcases List.mem_append.1 hc with hc1 | hc2
  · exact absurd (List.mem_takeWhile_imp hc1) (by rw [hw]; simp)
  · exact absurd (hall c hc2) (by rw [hw]; simp)

/-- Every fallback keyword starts with a specific non-whitespace
character. -/
theorem fallbackKeywords_head (k : String) (hk : k ∈ fallbackKeywords) :
    ∃ c cs, k.data = c :: cs ∧ jsWhitespace c = false := by
  fin_cases hk
  · exact ⟨'i', _, rfl, by decide⟩
  · exact ⟨'c', _, rfl, by decide⟩
  · exact ⟨'b', _, rfl, by decide⟩
  · exact ⟨'c', _, rfl, by decide⟩
  · exact ⟨'f', _, rfl, by decide⟩
  · exact ⟨'c', _, rfl, by decide⟩
  · exact ⟨'c', _, rfl, by decide⟩
  · exact ⟨'a', _, rfl, by decide⟩
  · exact ⟨'t', _, rfl, by decide⟩

/-- A keyword-bearing line survives the blank-line filter of
`parsePreviewPRP`. -/
theorem jsTrim_ne_empty_of_keyword (line : String)
    (h : lineHasKeyword line = true) : jsTrim line ≠ "" := by
  unfold lineHasKeyword at h
  rw [List.any_eq_true] at h
  rcases h with ⟨k, hk, hinc⟩
  rcases fallbackKeywords_head k hk with ⟨c, cs, hdata, hw⟩
  unfold strIncludes at hinc
  rw [hdata] at hinc
  have hcmem : c ∈ line.data := subOccurs_mem c cs line.data hinc
  intro he
  have : trimChars line.data = [] := by
    have := congrArg String.data he
    simpa [jsTrim] using this
  exact trimChars_ne_nil line.data c hcmem hw this

/-- Normalization preserves the (already truncated) batch length. -/
theorem normalizeLoop_length (config : TaskGenerationConfig) :
    ∀ (l : List Json) (idx : Nat) (ts : List AITask),
      normalizeLoop config idx l = Except.ok ts → ts.length = l.length := by
  intro l
  induction l with
  | nil =>
    intro idx ts h
    have h2 : (Except.ok ([] : List AITask) : Except Unit (List AITask)) =
        Except.ok ts := h
    injection h2 with h3
    rw [← h3]
    rfl
  | cons t rest ih =>
    intro idx ts h
    unfold normalizeLoop at h
    cases hn : normalizeTask config idx t with
    | error e =>
      rw [hn] at h
      have h2 : (Except.error e : Except Unit (List AITask)) = Except.ok ts := h
      cases h2
    | ok v =>
      rw [hn] at h
      cases hr : normalizeLoop config (idx + 1) rest with
      | error e =>
        rw [hr] at h
        have h2 : (Except.error e : Except Unit (List AITask)) = Except.ok ts := h
        cases h2
      | ok vs =>
        rw [hr] at h
        have h2 : (Except.ok (v :: vs) : Except Unit (List AITask)) =
            Except.ok ts := h
        injection h2 with h3
        rw [← h3, List.length_cons, List.length_cons, ih (idx + 1) vs hr]

/-! ## Claim C1 — generation pipeline bounds and fallback availability -/

/-- A configuration with `maxTasks = 0`, exercising the cap edge case. -/
def cfgZero : TaskGenerationConfig :=
  { maxTasks := 0, includeMilestones := false,
    defaultPriority := TaskPriority.medium, estimateHours := false,
    generateDependencies := false }

/-- A plain configuration with a positive cap. -/
def cfgThree : TaskGenerationConfig :=
  { maxTasks := 3, includeMilestones := false,
    defaultPriority := TaskPriority.medium, estimateHours := false,
    generateDependencies := false }

/-- A degenerate random stream (unused when `estimateHours = false`). -/
def randZero : Nat → ℚ := fun _ => 0

/-- Claim C1 counterexample: under a forced external failure with
`maxTasks = 0` and the single-line content `"test"`, the fallback pushes
one task before checking the cap, so the returned list has length 1 and
exceeds `config.maxTasks`. -/
theorem generateTasksFromPRP_maxTasks_zero_cex :
    cfgZero.maxTasks = 0 ∧
    (generateTasksFromPRP (Except.error ()) "test" Json.null cfgZero
      randZero).length = 1 ∧
    ¬ ((generateTasksFromPRP (Except.error ()) "test" Json.null cfgZero
      randZero).length ≤ cfgZero.maxTasks) := by
  refine ⟨rfl, by decide, by decide⟩

/-- `generate` either returns the fallback result or a successfully
normalized batch from a parsed JSON array payload. -/
theorem generateTasksFromPRP_cases (response : Except Unit String)
    (content : String) (ctx : Json) (config : TaskGenerationConfig)
    (rand : Nat → ℚ) :
    generateTasksFromPRP response content ctx config rand =
      parsePreviewPRP content config rand ∨
    ∃ text xs ts, response = Except.ok text ∧
      jsonParse text = some (Json.arr xs) ∧
      validateAndNormalizeTasks xs config = Except.ok ts ∧
      generateTasksFromPRP response content ctx config rand = ts := by
  cases response with
  | error e => exact Or.inl rfl
  | ok text =>
    unfold generateTasksFromPRP
    dsimp only
    cases hp : jsonParse text with
    | none => exact Or.inl rfl
    | some v =>
      cases v with
      | arr xs =>
        dsimp only
        cases hv : validateAndNormalizeTasks xs config with
        | error e => exact Or.inl rfl
        | ok ts => exact Or.inr ⟨text, xs, ts, rfl, hp, hv, rfl⟩
      | null => exact Or.inl rfl
      | bool b => exact Or.inl rfl
      | num q => exact Or.inl rfl
      | str s => exact Or.inl rfl
      | obj fs => exact Or.inl rfl

/-- Claim C1 (amended): `generate` always returns (the model is total: the
`try`/`catch` absorbs every AI-path failure into the fallback) a list of at
most `max config.maxTasks 1` tasks; the `maxTasks` cap itself holds
whenever `maxTasks ≥ 1` (the fallback can overshoot a zero cap by exactly
one task); and under a forced external-service failure the result is
nonempty whenever some line of the content contains a fallback keyword and
`maxTasks ≥ 1`. -/
theorem generateTasksFromPRP_bounds (response : Except Unit String)
    (content : String) (ctx : Json) (config : TaskGenerationConfig)
    (rand : Nat → ℚ) :
    ((generateTasksFromPRP response content ctx config rand).length ≤
      max config.maxTasks 1) ∧
    (1 ≤ config.maxTasks →
      (generateTasksFromPRP response content ctx config rand).length ≤
        config.maxTasks) ∧
    (response = Except.error () →
      1 ≤ config.maxTasks →
      (∃ line ∈ splitLines content, lineHasKeyword line = true) →
      generateTasksFromPRP response content ctx config rand ≠ []) := by
  have hfall1 : (parsePreviewPRP content config rand).length ≤
      max config.maxTasks 1 := by
    unfold parsePreviewPRP
    exact previewLoop_le_max config rand _ []
  have hfall2 : 1 ≤ config.maxTasks →
      (parsePreviewPRP content config rand).length ≤ config.maxTasks := by
    intro h1
    unfold parsePreviewPRP
    exact previewLoop_le config rand _ [] (by simpa using h1)
  have hai : ∀ xs ts, validateAndNormalizeTasks xs config = Except.ok ts →
      ts.length ≤ config.maxTasks := by
    intro xs ts h
    unfold validateAndNormalizeTasks at h
    rw [normalizeLoop_length config _ 0 ts h, List.length_take]
    exact min_le_left _ _
  rcases generateTasksFromPRP_cases response content ctx config rand with
    hcase | ⟨text, xs, ts, hresp, hp, hv, hcase⟩
  · refine ⟨?_, ?_, ?_⟩
    · rw [hcase]
      exact hfall1
    · intro h1
      rw [hcase]
      exact hfall2 h1
    · rintro rfl h1 ⟨line, hline, hkey⟩
      rw [hcase]
      unfold parsePreviewPRP
      apply previewLoop_ne_nil
      left
      refine ⟨line, ?_, hkey⟩
      apply List.mem_filter.2
      refine ⟨hline, ?_⟩
      simpa using jsTrim_ne_empty_of_keyword line hkey
  · refine ⟨?_, ?_, ?_⟩
    · rw [hcase]
      exact le_trans (hai xs ts hv) (le_max_left _ _)
    · intro h1
      rw [hcase]
      exact hai xs ts hv
    · rintro rfl h1 ⟨line, hline, hkey⟩
      cases hresp

/-- Claim C1 amended witness: a forced failure over `"implement x"` with a
cap of 3 yields a nonempty list within the cap. -/
theorem generateTasksFromPRP_bounds_witness :
    (generateTasksFromPRP (Except.error ()) "implement x" Json.null cfgThree
      randZero).length ≤ cfgThree.maxTasks ∧
    generateTasksFromPRP (Except.error ()) "implement x" Json.null cfgThree
      randZero ≠ [] := by
  have h := generateTasksFromPRP_bounds (Except.error ()) "implement x"
    Json.null cfgThree randZero
  exact ⟨h.2.1 (by decide), h.2.2 rfl (by decide) (by decide)⟩

/-! ## Claim C6 — fallback determinism -/

/-- The random-independent part of a fallback task: title, description,
priority. -/
def taskFingerprint (t : AITask) : String × Json × TaskPriority :=
  (t.title, t.description, t.priority)

/-- A configuration with hour estimation enabled. -/
def cfgEstimate : TaskGenerationConfig :=
  { maxTasks := 5, includeMilestones := false,
    defaultPriority := TaskPriority.medium, estimateHours := true,
    generateDependencies := false }

/-- A random stream pinned to `7/8` (still within `[0, 1)`). -/
def randHigh : Nat → ℚ := fun _ => 7/8

/-- Two fallback runs agree on everything except the `Math.random()`-based
hour estimates. -/
theorem previewLoop_fingerprint (config : TaskGenerationConfig)
    (r1 r2 : Nat → ℚ) :
    ∀ (lines : List String) (t1 t2 : List AITask),
      t1.map taskFingerprint = t2.map taskFingerprint →
      (previewLoop config r1 lines t1).map taskFingerprint =
        (previewLoop config r2 lines t2).map taskFingerprint := by
  intro lines
  induction lines with
  | nil =>
    intro t1 t2 h
    unfold previewLoop
    exact h
  | cons line rest ih =>
    intro t1 t2 h
    have hlen : t1.length = t2.length := by
      have := congrArg List.length h
      simpa using this
    unfold previewLoop
    by_cases hk : lineHasKeyword line = true
    · rw [if_pos hk, if_pos hk]
      dsimp only
      simp only [List.length_append, List.length_cons, List.length_nil]
      rw [hlen]
      by_cases hstop : config.maxTasks ≤ t2.length + (0 + 1)
      · rw [if_pos hstop, if_pos hstop]
        simp only [List.map_append, h, List.map_cons, List.map_nil]
        rfl
      · rw [if_neg hstop, if_neg hstop]
        apply ih
        simp only [List.map_append, h, List.map_cons, List.map_nil]
        rfl
    · rw [if_neg hk, if_neg hk]
      exact ih t1 t2 h

/-- With hour estimation off, the fallback loop ignores the random
stream entirely. -/
theorem previewLoop_no_estimate (config : TaskGenerationConfig)
    (hc : config.estimateHours = false) (r1 r2 : Nat → ℚ) :
    ∀ (lines : List String) (t : List AITask),
      previewLoop config r1 lines t = previewLoop config r2 lines t := by
  intro lines
  induction lines with
  | nil => intro t; rfl
  | cons line rest ih =>
    intro t
    unfold previewLoop
    rw [hc]
    simp only [Bool.false_eq_true, if_false]
    split_ifs
    all_goals (first | rfl | exact ih _)

/-- Claim C6 counterexample: with `estimateHours = true`, two invocations
over the same content `"test"` whose `Math.random()` streams return `0`
and `7/8` produce different task lists — hours `1` versus `8` — so the
fallback is not deterministic in its estimated hours. -/
theorem parsePreviewPRP_random_cex :
    ((0 : ℚ) ≤ randZero 0 ∧ randZero 0 < 1) ∧
    ((0 : ℚ) ≤ randHigh 0 ∧ randHigh 0 < 1) ∧
    (parsePreviewPRP "test" cfgEstimate randZero).map
      (fun t => t.estimatedHours) = [some 1] ∧
    (parsePreviewPRP "test" cfgEstimate randHigh).map
      (fun t => t.estimatedHours) = [some 8] ∧
    parsePreviewPRP "test" cfgEstimate randZero ≠
      parsePreviewPRP "test" cfgEstimate randHigh := by
  have e1 : (parsePreviewPRP "test" cfgEstimate randZero).map
      (fun t => t.estimatedHours) = [some 1] := by
    rw [show (parsePreviewPRP "test" cfgEstimate randZero).map
        (fun t => t.estimatedHours) =
        [some ((⌊(randZero 0) * (8 : ℚ)⌋ : ℚ) + 1)] from rfl]
    norm_num [randZero]
  have e2 : (parsePreviewPRP "test" cfgEstimate randHigh).map
      (fun t => t.estimatedHours) = [some 8] := by
    rw [show (parsePreviewPRP "test" cfgEstimate randHigh).map
        (fun t => t.estimatedHours) =
        [some ((⌊(randHigh 0) * (8 : ℚ)⌋ : ℚ) + 1)] from rfl]
    norm_num [randHigh]
  refine ⟨⟨le_refl (0 : ℚ), by norm_num [randZero]⟩,
    ⟨by norm_num [randHigh], by norm_num [randHigh]⟩, e1, e2, ?_⟩
  intro h
  have h2 := congrArg (List.map (fun (t : AITask) => t.estimatedHours)) h
  rw [e1, e2] at h2
  simp at h2

/-- Claim C6 (amended): the fallback path is deterministic in titles,
descriptions, and priorities for any random streams, and fully
deterministic whenever `config.estimateHours` is off; only the
`Math.random()`-derived hour estimates can differ between invocations. -/
theorem parsePreviewPRP_deterministic (content : String)
    (config : TaskGenerationConfig) (r1 r2 : Nat → ℚ) :
    ((parsePreviewPRP content config r1).map taskFingerprint =
      (parsePreviewPRP content config r2).map taskFingerprint) ∧
    (config.estimateHours = false →
      parsePreviewPRP content config r1 = parsePreviewPRP content config r2) := by
  constructor
  · unfold parsePreviewPRP
    exact previewLoop_fingerprint config r1 r2 _ [] [] rfl
  · intro hc
    unfold parsePreviewPRP
    exact previewLoop_no_estimate config hc r1 r2 _ []

/-- Claim C6 amended witness: with estimation off the two runs coincide
exactly. -/
theorem parsePreviewPRP_deterministic_witness :
    parsePreviewPRP "implement x" cfgThree randZero =
      parsePreviewPRP "implement x" cfgThree randHigh :=
  (parsePreviewPRP_deterministic "implement x" cfgThree randZero randHigh).2 rfl

/-! ## Claim C7 — prose-wrapped payloads -/

/-- Modelled from the spec (§6, §9): "extracting the first well-formed
array-shaped substring" — take the substring starting at the first `[` and
return the shortest extension of it that parses as a JSON array.  This is
the behaviour the spec claims for step 4; the code itself parses the whole
payload instead. -/
def specExtractFirstArray (s : String) : Option (List Json) :=
  match s.data.dropWhile (fun c => c ≠ '[') with
  | [] => none
  | l => (List.range (l.length + 1)).findSome? (fun e =>
      match jsonParse (String.mk (l.take e)) with
      | some (Json.arr xs) => some xs
      | _ => none)

/-- Claim C7 counterexample: the payload `"ok []"` contains the
well-formed array substring `[]` (which the spec-modelled extraction finds
and which normalizes to the empty batch), yet `generate` falls back to
keyword extraction over the content `"test"` and returns one fallback task
instead of the empty normalized batch. -/
theorem generateTasksFromPRP_prose_cex :
    specExtractFirstArray "ok []" = some [] ∧
    validateAndNormalizeTasks [] cfgThree = Except.ok [] ∧
    (generateTasksFromPRP (Except.ok "ok []") "test" Json.null cfgThree
      randZero).map (fun t => t.title) = ["test"] ∧
    generateTasksFromPRP (Except.ok "ok []") "test" Json.null cfgThree
      randZero ≠ [] := by
  have hm : (generateTasksFromPRP (Except.ok "ok []") "test" Json.null cfgThree
      randZero).map (fun t => t.title) = ["test"] := by decide
  refine ⟨rfl, rfl, hm, ?_⟩
  intro h
  rw [h] at hm
  exact absurd hm (by decide)

/-- Claim C7 (amended): step 4 of `generate` runs `JSON.parse` on the
whole payload: a payload that parses to a JSON array proceeds to
normalization (and is returned when normalization succeeds), while a
payload `JSON.parse` rejects — in particular one with prose around the
array — triggers the keyword fallback. -/
theorem generateTasksFromPRP_step4 (text content : String) (ctx : Json)
    (config : TaskGenerationConfig) (rand : Nat → ℚ) :
    (∀ xs ts, jsonParse text = some (Json.arr xs) →
      validateAndNormalizeTasks xs config = Except.ok ts →
      generateTasksFromPRP (Except.ok text) content ctx config rand = ts) ∧
    (jsonParse text = none →
      generateTasksFromPRP (Except.ok text) content ctx config rand =
        parsePreviewPRP content config rand) := by
  constructor
  · intro xs ts hp hn
    unfold generateTasksFromPRP
    dsimp only
    rw [hp]
    dsimp only
    rw [hn]
  · intro hp
    unfold generateTasksFromPRP
    dsimp only
    rw [hp]

/-- Claim C7 amended witness: the exact payload `"[]"` parses and yields
the empty normalized batch. -/
theorem generateTasksFromPRP_step4_witness :
    generateTasksFromPRP (Except.ok "[]") "test" Json.null cfgThree
      randZero = [] :=
  (generateTasksFromPRP_step4 "[]" "test" Json.null cfgThree randZero).1
    [] [] rfl rfl

end ProjectMaster
